import Mathlib

/-!
# Verification of the nexus-analyzer breach engine

A shallow embedding of `src/calculator/nexus.py` (the `NexusCalculator`
class): the data model produced by the data cleaner, the rolling-12-month
and calendar-year breach evaluators, and the batch orchestrator, together
with theorems about them.

Dates are modelled as epoch-day integers (a pandas `Timestamp` at day
resolution); the calendar-year of a date and the day number of January 1
of a year are computed by the standard civil-calendar conversion
algorithms, mirroring `date.dt.year` and `datetime(year, 1, 1)`.
Monetary amounts and counts are modelled as exact rationals.
-/

namespace NexusAnalyzer

/-- Day number of the civil date `(y, m, d)` (days since 1970-01-01),
the proleptic-Gregorian conversion used by `datetime`/pandas timestamps. -/
def daysFromCivil (y0 m d : Int) : Int :=
  let y : Int := if m ≤ 2 then y0 - 1 else y0
  let era : Int := (if 0 ≤ y then y else y - 399) / 400
  let yoe : Int := y - era * 400
  let doy : Int := (153 * (m + (if 2 < m then -3 else 9)) + 2) / 5 + d - 1
  let doe : Int := yoe * 365 + yoe / 4 - yoe / 100 + doy
  era * 146097 + doe - 719468

/-- Calendar year of an epoch-day number (the `year` column the cleaner
derives via `date.dt.year`). -/
def yearOfDay (z0 : Int) : Int :=
  let z : Int := z0 + 719468
  let era : Int := (if 0 ≤ z then z else z - 146096) / 146097
  let doe : Int := z - era * 146097
  let yoe : Int := (doe - doe / 1460 + doe / 36524 - doe / 146096) / 365
  let y : Int := yoe + era * 400
  let doy : Int := doe - (365 * yoe + yoe / 4 - yoe / 100)
  let mp : Int := (5 * doy + 2) / 153
  let m : Int := mp + (if mp < 10 then 3 else -9)
  if m ≤ 2 then y + 1 else y

/-- One cleaned sales row for one (state, date): the columns of the
cleaner's output that the calculator reads. -/
structure SalesRecord where
  date : Int
  state : String
  nexus_sales : Rat
  marketplace_sales : Rat
  transaction_count : Rat
deriving DecidableEq, Repr

/-- One state's configuration entry (`self.config[state]`), a dict read
with `.get`: absent keys are `none`. -/
structure RuleRecord where
  lookback_rule : Option String := none
  sales_threshold : Option Rat := none
  transaction_threshold : Option Rat := none
  marketplace_threshold_inclusion : Option Bool := none
deriving DecidableEq, Repr

/-- Python truthiness of an optional numeric config value
(`config.get("sales_threshold")` in an `if`): present and nonzero. -/
def qTruthy : Option Rat → Bool
  | none => false
  | some q => decide (q ≠ 0)

/-- Result of nexus breach calculation for one state
(`NexusBreachResult`). -/
structure NexusBreachResult where
  state : String
  has_nexus : Bool
  breach_date : Option Int := none
  breach_type : Option String := none
  breach_amount : Option Rat := none
  lookback_rule : Option String := none
deriving DecidableEq, Repr

/-- Per-row value compared against the sales threshold:
`nexus_sales + marketplace_sales` when `marketplace_threshold_inclusion`
(default `True`) holds, else `nexus_sales` alone. -/
def thresholdSales (config : RuleRecord) (r : SalesRecord) : Rat :=
  if config.marketplace_threshold_inclusion.getD true then
    r.nexus_sales + r.marketplace_sales
  else
    r.nexus_sales

/-- Date-sort relation used by `data.sort_values("date")`. -/
def dateLe (a b : SalesRecord) : Prop := a.date ≤ b.date

instance : DecidableRel dateLe := fun a b =>
  inferInstanceAs (Decidable (a.date ≤ b.date))

instance : IsTotal SalesRecord dateLe :=
  ⟨fun a b => Int.le_total a.date b.date⟩

instance : IsTrans SalesRecord dateLe :=
  ⟨fun _ _ _ hab hbc => le_trans hab hbc⟩

/-- Membership test of the pandas window `(D - 365 days, D]` that
`.rolling("365D")` (right-closed) uses at a row dated `D`. -/
def inWindow (dD : Int) (r : SalesRecord) : Bool :=
  decide (dD - 365 < r.date ∧ r.date ≤ dD)

/-- `rollAux f seen rest`: the values of
`series.rolling("365D", min_periods=1).sum()` for the rows of `rest`,
where `seen` are the rows that precede them in the sorted frame. -/
def rollAux (f : SalesRecord → Rat) (seen : List SalesRecord) :
    List SalesRecord → List Rat
  | [] => []
  | r :: rest =>
      (((seen ++ [r]).filter (inWindow r.date)).map f).sum ::
        rollAux f (seen ++ [r]) rest

/-- The rolling-365-day sums over a date-sorted frame, one per row. -/
def rollingVals (f : SalesRecord → Rat) (rows : List SalesRecord) : List Rat :=
  rollAux f [] rows

/-- `mask.any()` / `mask.idxmax()` over a rolling series: the first row
(in frame order) whose rolling value reaches `thr`, as
(its date, its rolling value). -/
def firstHit (rows : List SalesRecord) (vals : List Rat) (thr : Rat) :
    Option (Int × Rat) :=
  ((rows.zip vals).find? (fun p => decide (thr ≤ p.2))).map
    (fun p => (p.1.date, p.2))

/-- `NexusCalculator._calculate_rolling_12m`. -/
def calculate_rolling_12m (state : String) (data : List SalesRecord)
    (config : RuleRecord) : NexusBreachResult :=
  let rows := data.insertionSort dateLe
  let rollingSales := rollingVals (thresholdSales config) rows
  let rollingTrans := rollingVals (fun r => r.transaction_count) rows
  let salesHit :=
    if qTruthy config.sales_threshold then
      firstHit rows rollingSales (config.sales_threshold.getD 0)
    else none
  match salesHit with
  | some (d, v) =>
      ⟨state, true, some d, some "sales", some v, some "rolling_12m"⟩
  | none =>
      let transHit :=
        if qTruthy config.transaction_threshold then
          firstHit rows rollingTrans (config.transaction_threshold.getD 0)
        else none
      match transHit with
      | some (d, v) =>
          ⟨state, true, some d, some "transactions", some v,
            some "rolling_12m"⟩
      | none => ⟨state, false, none, none, none, some "rolling_12m"⟩

/-- The distinct calendar years of a frame, ascending: the index of
`data.groupby("year")`. -/
def calYears (data : List SalesRecord) : List Int :=
  ((data.map (fun r => yearOfDay r.date)).dedup).insertionSort (· ≤ ·)

/-- Sum of a column over one calendar year's rows
(one cell of the `groupby("year").agg` frame). -/
def yearSum (f : SalesRecord → Rat) (data : List SalesRecord) (y : Int) : Rat :=
  ((data.filter (fun r => decide (yearOfDay r.date = y))).map f).sum

/-- A year's `threshold_sales` cell: annual nexus plus marketplace sales
when the inclusion flag (default `True`) holds, else annual nexus sales. -/
def annualThresholdSales (config : RuleRecord) (data : List SalesRecord)
    (y : Int) : Rat :=
  if config.marketplace_threshold_inclusion.getD true then
    yearSum (fun r => r.nexus_sales) data y +
      yearSum (fun r => r.marketplace_sales) data y
  else
    yearSum (fun r => r.nexus_sales) data y

/-- The `for year in annual.index` loop of
`_calculate_calendar_prev_curr`: scan years, return on first hit. -/
def calLoop (state : String) (config : RuleRecord) (data : List SalesRecord) :
    List Int → NexusBreachResult
  | [] => ⟨state, false, none, none, none, some "calendar_prev_curr"⟩
  | y :: ys =>
      if qTruthy config.sales_threshold ∧
          config.sales_threshold.getD 0 ≤ annualThresholdSales config data y then
        ⟨state, true, some (daysFromCivil y 1 1), some "sales",
          some (annualThresholdSales config data y), some "calendar_prev_curr"⟩
      else if qTruthy config.transaction_threshold ∧
          config.transaction_threshold.getD 0 ≤
            yearSum (fun r => r.transaction_count) data y then
        ⟨state, true, some (daysFromCivil y 1 1), some "transactions",
          some (yearSum (fun r => r.transaction_count) data y),
          some "calendar_prev_curr"⟩
      else calLoop state config data ys

/-- `NexusCalculator._calculate_calendar_prev_curr`. -/
def calculate_calendar_prev_curr (state : String) (data : List SalesRecord)
    (config : RuleRecord) : NexusBreachResult :=
  calLoop state config data (calYears data)

/-- `self.config`, a dict from state code to rule record (insertion
order), looked up by first match. -/
def lookupCfg (config : List (String × RuleRecord)) (s : String) :
    Option RuleRecord :=
  (config.find? (fun p => p.1 = s)).map Prod.snd

/-- `NexusCalculator.analyze_state`. -/
def analyze_state (config : List (String × RuleRecord)) (state : String)
    (sales_data : List SalesRecord) : NexusBreachResult :=
  match lookupCfg config state with
  | none => ⟨state, false, none, none, none, none⟩
  | some state_config =>
      let state_data := sales_data.filter (fun r => decide (r.state = state))
      if state_data.isEmpty then ⟨state, false, none, none, none, none⟩
      else
        match state_config.lookback_rule with
        | some "rolling_12m" =>
            calculate_rolling_12m state state_data state_config
        | some "calendar_prev_curr" =>
            calculate_calendar_prev_curr state state_data state_config
        | lr => ⟨state, false, none, none, none, lr⟩

/-- Sort order of the final result list:
`key = (not has_nexus, state)`, lexicographic. -/
def resLe (a b : NexusBreachResult) : Prop :=
  if a.has_nexus = b.has_nexus then a.state ≤ b.state
  else a.has_nexus = true

instance : DecidableRel resLe := fun a b => by
  unfold resLe; infer_instance

/-- `NexusCalculator.analyze_all_states`. -/
def analyze_all_states (config : List (String × RuleRecord))
    (sales_data : List SalesRecord) : List NexusBreachResult :=
  let results := config.map (fun p =>
    if (sales_data.map (fun r => r.state)).contains p.1 then
      analyze_state config p.1 sales_data
    else
      ⟨p.1, false, none, none, none, p.2.lookback_rule⟩)
  results.insertionSort resLe

/-! ## Rolling-window machinery -/

/-- Strict date order: distinct-date frames sort into this. -/
def dateLt (a b : SalesRecord) : Prop := a.date < b.date

/-- The spec's window: the sum of a column over the rows whose date lies
in the inclusive 365-calendar-day window `[D - 364, D]`. -/
def specWindowSum (f : SalesRecord → Rat) (data : List SalesRecord)
    (D : Int) : Rat :=
  ((data.filter (fun r => decide (D - 364 ≤ r.date ∧ r.date ≤ D))).map f).sum

/-- The code's right-closed window `(D - 365, D]` coincides with the
spec's inclusive `[D - 364, D]` on integer days. -/
theorem filter_inWindow_eq (data : List SalesRecord) (D : Int) :
    data.filter (inWindow D) =
      data.filter (fun r => decide (D - 364 ≤ r.date ∧ r.date ≤ D)) := by
  apply List.filter_congr
  intro r _
  simp only [inWindow, decide_eq_decide]
  omega

/-- On a strictly date-sorted tail, the rolling values are the full-frame
window sums: rows beyond a given row never fall inside its window. -/
theorem rollAux_eq_map (f : SalesRecord → Rat) :
    ∀ (rest seen : List SalesRecord),
      (seen ++ rest).Pairwise dateLt →
      rollAux f seen rest =
        rest.map (fun r => (((seen ++ rest).filter (inWindow r.date)).map f).sum)
  | [], _, _ => rfl
  | r :: rest, seen, h => by
    have hpair : ∀ x ∈ rest, r.date < x.date := by
      intro x hx
      have := (List.pairwise_append.mp h).2.1
      exact (List.pairwise_cons.mp this).1 x hx
    have hrest : rest.filter (inWindow r.date) = [] := by
      simp only [List.filter_eq_nil_iff]
      intro x hx
      simp only [inWindow, decide_eq_true_eq, not_and, not_le]
      intro _
      exact hpair x hx
    have hhead : (seen ++ r :: rest).filter (inWindow r.date) =
        (seen ++ [r]).filter (inWindow r.date) := by
      have : seen ++ r :: rest = (seen ++ [r]) ++ rest := by simp
      rw [this, List.filter_append, hrest, List.append_nil]
    have hassoc : (seen ++ [r]) ++ rest = seen ++ r :: rest := by simp
    have htail := rollAux_eq_map f rest (seen ++ [r]) (by rw [hassoc]; exact h)
    simp only [rollAux, htail, hassoc, List.map_cons]
    rw [hhead]

/-- Over a strictly date-sorted frame, the rolling 365-day series is,
row by row, the inclusive `[D - 364, D]` window sum of the whole frame. -/
theorem rollingVals_eq_map (f : SalesRecord → Rat) (rows : List SalesRecord)
    (h : rows.Pairwise dateLt) :
    rollingVals f rows = rows.map (fun r => specWindowSum f rows r.date) := by
  unfold rollingVals
  rw [rollAux_eq_map f rows [] (by simpa using h)]
  simp only [List.nil_append]
  apply List.map_congr_left
  intro r _
  rw [specWindowSum, filter_inWindow_eq]

/-- A frame with pairwise-distinct dates sorts into strictly ascending
date order. -/
theorem insertionSort_pairwise_dateLt (data : List SalesRecord)
    (hnd : (data.map SalesRecord.date).Nodup) :
    (data.insertionSort dateLe).Pairwise dateLt := by
  have hsorted : (data.insertionSort dateLe).Pairwise dateLe :=
    List.sorted_insertionSort dateLe data
  have hperm : List.Perm (data.insertionSort dateLe) data :=
    List.perm_insertionSort dateLe data
  have hnd2 : ((data.insertionSort dateLe).map SalesRecord.date).Nodup :=
    (hperm.map SalesRecord.date).nodup_iff.mpr hnd
  have hne : (data.insertionSort dateLe).Pairwise
      (fun a b => a.date ≠ b.date) := by
    simpa [List.Nodup, List.pairwise_map] using hnd2
  exact (hsorted.and hne).imp (fun h => lt_of_le_of_ne h.1 h.2)

/-- Window sums do not see row order: sorting the frame leaves every
window sum unchanged. -/
theorem specWindowSum_insertionSort (f : SalesRecord → Rat)
    (data : List SalesRecord) (D : Int) :
    specWindowSum f (data.insertionSort dateLe) D = specWindowSum f data D := by
  unfold specWindowSum
  exact List.Perm.sum_eq
    (List.Perm.map f (List.Perm.filter _ (List.perm_insertionSort dateLe data)))

/-- Zipping a list with its own image under `g` pairs each element with
its value. -/
theorem zip_map_self {α β : Type} (g : α → β) :
    ∀ l : List α, l.zip (l.map g) = l.map (fun a => (a, g a))
  | [] => rfl
  | a :: l => by simp [List.zip_cons_cons, zip_map_self g l]

/-- In a strictly sorted list, `find?` returns the given element when it
satisfies the test and everything strictly before it does not. -/
theorem find?_sorted_eq_some {α : Type} [DecidableEq α] {R : α → α → Prop}
    (q : α → Bool) :
    ∀ (l : List α), l.Pairwise R → ∀ a ∈ l, q a = true →
      (∀ x ∈ l, R x a → q x = false) → l.find? q = some a
  | [], _, a, ha, _, _ => by cases ha
  | b :: l, h, a, ha, hqa, hmin => by
    by_cases hba : b = a
    · subst hba
      exact List.find?_cons_of_pos _ hqa
    · have hal : a ∈ l := by
        cases List.mem_cons.mp ha with
        | inl h1 => exact absurd h1.symm hba
        | inr h2 => exact h2
      have hRba : R b a := (List.pairwise_cons.mp h).1 a hal
      have hqb : q b = false := hmin b (List.mem_cons_self b l) hRba
      rw [List.find?_cons_of_neg _ (by simp [hqb])]
      exact find?_sorted_eq_some q l (List.pairwise_cons.mp h).2 a hal hqa
        (fun x hx => hmin x (List.mem_cons_of_mem b hx))

/-- `firstHit` over the rolling series of a strictly sorted frame: the
earliest row whose window sum reaches the threshold is hit, and carries
its window sum. -/
theorem firstHit_eq_some (f : SalesRecord → Rat) (rows : List SalesRecord)
    (thr : Rat) (h : rows.Pairwise dateLt) (r0 : SalesRecord)
    (hmem : r0 ∈ rows) (hge : thr ≤ specWindowSum f rows r0.date)
    (hmin : ∀ r ∈ rows, r.date < r0.date →
      specWindowSum f rows r.date < thr) :
    firstHit rows (rollingVals f rows) thr =
      some (r0.date, specWindowSum f rows r0.date) := by
  rw [firstHit, rollingVals_eq_map f rows h, zip_map_self,
    List.find?_map]
  have : rows.find?
      ((fun p => decide (thr ≤ p.2)) ∘ fun r => (r, specWindowSum f rows r.date)) =
      some r0 := by
    apply find?_sorted_eq_some (R := dateLt) _ rows h r0 hmem
    · simpa using hge
    · intro x hx hlt
      simpa using not_le.mpr (hmin x hx hlt)
  rw [this]
  rfl

/-- `firstHit` misses when no row's rolling value reaches the threshold. -/
theorem firstHit_eq_none (f : SalesRecord → Rat) (rows : List SalesRecord)
    (thr : Rat) (h : rows.Pairwise dateLt)
    (hlt : ∀ r ∈ rows, specWindowSum f rows r.date < thr) :
    firstHit rows (rollingVals f rows) thr = none := by
  rw [firstHit, rollingVals_eq_map f rows h, zip_map_self, List.find?_map]
  have : rows.find?
      ((fun p => decide (thr ≤ p.2)) ∘ fun r => (r, specWindowSum f rows r.date)) =
      none := by
    rw [List.find?_eq_none]
    intro x hx
    simpa using not_le.mpr (hlt x hx)
  rw [this]
  rfl

/-- A nonzero configured threshold is truthy. -/
theorem qTruthy_some {thr : Rat} (hne : thr ≠ 0) : qTruthy (some thr) = true := by
  simp [qTruthy, hne]

/-- Characterization of a sales breach under `rolling_12m`: on a
distinct-date frame, if some row's inclusive 365-day sales window sum
reaches the configured threshold and every earlier-dated row's does not,
the evaluator reports exactly that row's date, the `sales` type, and that
window sum. -/
theorem rolling12m_sales_breach (state : String) (data : List SalesRecord)
    (config : RuleRecord) (thr : Rat) (r0 : SalesRecord)
    (hnd : (data.map SalesRecord.date).Nodup)
    (hthr : config.sales_threshold = some thr) (hne : thr ≠ 0)
    (hmem : r0 ∈ data)
    (hge : thr ≤ specWindowSum (thresholdSales config) data r0.date)
    (hmin : ∀ r ∈ data, r.date < r0.date →
      specWindowSum (thresholdSales config) data r.date < thr) :
    calculate_rolling_12m state data config =
      ⟨state, true, some r0.date, some "sales",
        some (specWindowSum (thresholdSales config) data r0.date),
        some "rolling_12m"⟩ := by
  have hp : (data.insertionSort dateLe).Pairwise dateLt :=
    insertionSort_pairwise_dateLt data hnd
  have hhit : firstHit (data.insertionSort dateLe)
      (rollingVals (thresholdSales config) (data.insertionSort dateLe)) thr =
      some (r0.date, specWindowSum (thresholdSales config)
        (data.insertionSort dateLe) r0.date) := by
    apply firstHit_eq_some _ _ _ hp r0
    · exact (List.mem_insertionSort dateLe).mpr hmem
    · rw [specWindowSum_insertionSort]; exact hge
    · intro r hr hlt
      rw [specWindowSum_insertionSort]
      exact hmin r ((List.mem_insertionSort dateLe).mp hr) hlt
  rw [specWindowSum_insertionSort] at hhit
  simp only [calculate_rolling_12m, hthr, qTruthy_some hne, if_true,
    Option.getD_some, hhit]

/-- Characterization of a transaction breach under `rolling_12m` when the
sales threshold is zero or absent: the earliest row whose 365-day
transaction-count window sum reaches the threshold is reported. -/
theorem rolling12m_trans_breach (state : String) (data : List SalesRecord)
    (config : RuleRecord) (thr : Rat) (r0 : SalesRecord)
    (hnd : (data.map SalesRecord.date).Nodup)
    (hsal : qTruthy config.sales_threshold = false)
    (hthr : config.transaction_threshold = some thr) (hne : thr ≠ 0)
    (hmem : r0 ∈ data)
    (hge : thr ≤ specWindowSum (fun r => r.transaction_count) data r0.date)
    (hmin : ∀ r ∈ data, r.date < r0.date →
      specWindowSum (fun r => r.transaction_count) data r.date < thr) :
    calculate_rolling_12m state data config =
      ⟨state, true, some r0.date, some "transactions",
        some (specWindowSum (fun r => r.transaction_count) data r0.date),
        some "rolling_12m"⟩ := by
  have hp : (data.insertionSort dateLe).Pairwise dateLt :=
    insertionSort_pairwise_dateLt data hnd
  have hhit : firstHit (data.insertionSort dateLe)
      (rollingVals (fun r => r.transaction_count) (data.insertionSort dateLe))
      thr =
      some (r0.date, specWindowSum (fun r => r.transaction_count)
        (data.insertionSort dateLe) r0.date) := by
    apply firstHit_eq_some _ _ _ hp r0
    · exact (List.mem_insertionSort dateLe).mpr hmem
    · rw [specWindowSum_insertionSort]; exact hge
    · intro r hr hlt
      rw [specWindowSum_insertionSort]
      exact hmin r ((List.mem_insertionSort dateLe).mp hr) hlt
  rw [specWindowSum_insertionSort] at hhit
  simp only [calculate_rolling_12m, hsal, hthr, qTruthy_some hne,
    Bool.false_eq_true, if_false, if_true, Option.getD_some, hhit]

/-- No breach under `rolling_12m` when the configured sales threshold is
never reached by any window sum and the transaction threshold is zero or
absent. -/
theorem rolling12m_no_breach (state : String) (data : List SalesRecord)
    (config : RuleRecord) (thr : Rat)
    (hnd : (data.map SalesRecord.date).Nodup)
    (hthr : config.sales_threshold = some thr) (hne : thr ≠ 0)
    (hlt : ∀ r ∈ data, specWindowSum (thresholdSales config) data r.date < thr)
    (htr : qTruthy config.transaction_threshold = false) :
    calculate_rolling_12m state data config =
      ⟨state, false, none, none, none, some "rolling_12m"⟩ := by
  have hp : (data.insertionSort dateLe).Pairwise dateLt :=
    insertionSort_pairwise_dateLt data hnd
  have hhit : firstHit (data.insertionSort dateLe)
      (rollingVals (thresholdSales config) (data.insertionSort dateLe)) thr =
      none := by
    apply firstHit_eq_none _ _ _ hp
    intro r hr
    rw [specWindowSum_insertionSort]
    exact hlt r ((List.mem_insertionSort dateLe).mp hr)
  simp only [calculate_rolling_12m, hthr, qTruthy_some hne, if_true,
    Option.getD_some, hhit, htr, Bool.false_eq_true, if_false]

/-! ## A concrete data family: one record per day, constant amounts -/

/-- `n` consecutive daily records for one state starting at epoch day
`start`, each with the same amounts. -/
def mkDaily (st : String) (start : Int) (amt mkt tc : Rat) (n : Nat) :
    List SalesRecord :=
  (List.range n).map (fun k : Nat => ⟨start + (k : Int), st, amt, mkt, tc⟩)

theorem mkDaily_dates_nodup (st : String) (start : Int) (amt mkt tc : Rat)
    (n : Nat) : ((mkDaily st start amt mkt tc n).map SalesRecord.date).Nodup := by
  unfold mkDaily
  rw [List.map_map]
  apply List.Nodup.map _ (List.nodup_range n)
  intro a b hab
  simpa using hab

theorem mkDaily_mem (st : String) (start : Int) (amt mkt tc : Rat)
    {n k : Nat} (hk : k < n) :
    (⟨start + k, st, amt, mkt, tc⟩ : SalesRecord) ∈ mkDaily st start amt mkt tc n :=
  List.mem_map_of_mem _ (List.mem_range.mpr hk)

theorem mkDaily_mem_inv (st : String) (start : Int) (amt mkt tc : Rat)
    {n : Nat} {r : SalesRecord} (hr : r ∈ mkDaily st start amt mkt tc n) :
    ∃ k : Nat, k < n ∧ r = ⟨start + k, st, amt, mkt, tc⟩ := by
  unfold mkDaily at hr
  obtain ⟨k, hk, rfl⟩ := List.mem_map.mp hr
  exact ⟨k, List.mem_range.mp hk, rfl⟩

theorem filter_range_le (k : Nat) :
    ∀ n : Nat, k < n →
      (List.range n).filter (fun j => decide (j ≤ k)) = List.range (k + 1)
  | 0, h => absurd h (Nat.not_lt_zero k)
  | n + 1, h => by
    rw [List.range_succ, List.filter_append]
    by_cases hk : k = n
    · subst hk
      have h1 : (List.range k).filter (fun j => decide (j ≤ k)) =
          List.range k := by
        rw [List.filter_eq_self]
        intro a ha
        simp [Nat.le_of_lt (List.mem_range.mp ha)]
      simp [h1, List.range_succ]
    · have hkn : k < n := Nat.lt_of_lt_of_le (Nat.lt_of_le_of_ne
        (Nat.le_of_lt_succ h) hk) (Nat.le_refl n)
      have h2 : [n].filter (fun j => decide (j ≤ k)) = [] := by
        simp [Nat.not_le.mpr hkn]
      rw [filter_range_le k n hkn, h2, List.append_nil]

/-- Window-sum formula for the daily family: while the window's left edge
is still before the first record (`k ≤ 364`), the inclusive window sum at
day `start + k` is the cumulative sum `(k + 1) · c` of a column constant
at `c`. -/
theorem specWindowSum_mkDaily (st : String) (start : Int) (amt mkt tc : Rat)
    (g : SalesRecord → Rat) (c : Rat) {n k : Nat}
    (hg : ∀ j : Nat, g ⟨start + j, st, amt, mkt, tc⟩ = c)
    (hk : k < n) (h364 : k ≤ 364) :
    specWindowSum g (mkDaily st start amt mkt tc n) (start + k) =
      ((k : Rat) + 1) * c := by
  unfold specWindowSum mkDaily
  rw [List.filter_map]
  have hcong : (List.range n).filter
      ((fun r => decide (start + (k : Int) - 364 ≤ r.date ∧
        r.date ≤ start + (k : Int))) ∘ fun j : Nat =>
          (⟨start + j, st, amt, mkt, tc⟩ : SalesRecord)) =
      (List.range n).filter (fun j => decide (j ≤ k)) := by
    apply List.filter_congr
    intro j _
    simp only [Function.comp_apply, decide_eq_decide]
    omega
  rw [hcong, filter_range_le k n hk, List.map_map]
  have hmap : (List.range (k + 1)).map
      (g ∘ fun j : Nat => (⟨start + j, st, amt, mkt, tc⟩ : SalesRecord)) =
      List.replicate (k + 1) c := by
    rw [show List.replicate (k + 1) c =
        (List.range (k + 1)).map (fun _ => c) by
      rw [List.map_const']; simp]
    apply List.map_congr_left
    intro j _
    exact hg j
  rw [hmap, List.sum_replicate, nsmul_eq_mul]
  push_cast
  ring

/-! ## Concrete instance for the rolling example:
$1,500 of sales every day for 365 days against a $500,000 threshold -/

/-- Epoch day of 2023-01-01. -/
def c1start : Int := daysFromCivil 2023 1 1

def c1data : List SalesRecord := mkDaily "CA" c1start 1500 0 1 365

def c1config : RuleRecord :=
  { lookback_rule := some "rolling_12m", sales_threshold := some 500000 }

theorem c1_thresholdSales (j : Nat) :
    thresholdSales c1config ⟨c1start + j, "CA", 1500, 0, 1⟩ = 1500 := by
  simp [thresholdSales, c1config]

theorem c1_result :
    calculate_rolling_12m "CA" c1data c1config =
      ⟨"CA", true, some (c1start + 333), some "sales", some 501000,
        some "rolling_12m"⟩ := by
  have hform : ∀ k : Nat, k < 365 → k ≤ 364 →
      specWindowSum (thresholdSales c1config) c1data (c1start + k) =
        ((k : Rat) + 1) * 1500 := by
    intro k hk h364
    exact specWindowSum_mkDaily "CA" c1start 1500 0 1
      (thresholdSales c1config) 1500 (fun j => c1_thresholdSales j) hk h364
  have h333 : specWindowSum (thresholdSales c1config) c1data
      (c1start + (333 : Nat)) = 501000 := by
    rw [hform 333 (by norm_num) (by norm_num)]
    norm_num
  have hres := rolling12m_sales_breach "CA" c1data c1config 500000
    ⟨c1start + (333 : Nat), "CA", 1500, 0, 1⟩
    (mkDaily_dates_nodup "CA" c1start 1500 0 1 365)
    rfl (by norm_num)
    (mkDaily_mem "CA" c1start 1500 0 1 (by norm_num))
    (by rw [h333]; norm_num)
    (by
      intro r hr hlt
      obtain ⟨j, hj, rfl⟩ := mkDaily_mem_inv "CA" c1start 1500 0 1 hr
      simp only at hlt ⊢
      have hj333 : j < 333 := by exact_mod_cast (by omega : (j : Int) < 333)
      rw [hform j hj (by omega)]
      have hcast : (j : Rat) ≤ 332 := by exact_mod_cast Nat.lt_succ_iff.mp hj333
      nlinarith)
  rw [hres, h333]
  norm_num

/-- C1. Under `rolling_12m`, the evaluator compares the threshold against
the sum of threshold-sales (and, for any column, in particular
transaction counts) over the inclusive 365-calendar-day window
`[D - 364, D]` at every row date `D`, scanning ascending; `breach_date`
is the first date whose rolling sum reaches the threshold; and on a state
with $1,500 of sales every day for 365 days against a $500,000 threshold
the breach is reported on the 334th day (0-indexed day 333). -/
theorem rolling12m_window_and_first_breach :
    (∀ (data : List SalesRecord) (f : SalesRecord → Rat),
        (data.map SalesRecord.date).Nodup →
        rollingVals f (data.insertionSort dateLe) =
          (data.insertionSort dateLe).map
            (fun r => specWindowSum f data r.date)) ∧
    (∀ (state : String) (data : List SalesRecord) (config : RuleRecord)
        (thr : Rat) (r0 : SalesRecord),
        (data.map SalesRecord.date).Nodup →
        config.sales_threshold = some thr → thr ≠ 0 → r0 ∈ data →
        thr ≤ specWindowSum (thresholdSales config) data r0.date →
        (∀ r ∈ data, r.date < r0.date →
          specWindowSum (thresholdSales config) data r.date < thr) →
        calculate_rolling_12m state data config =
          ⟨state, true, some r0.date, some "sales",
            some (specWindowSum (thresholdSales config) data r0.date),
            some "rolling_12m"⟩) ∧
    (calculate_rolling_12m "CA" c1data c1config).breach_date =
      some (c1start + 333) ∧
    (calculate_rolling_12m "CA" c1data c1config).breach_type = some "sales" := by
  refine ⟨?_, ?_, ?_, ?_⟩
  · intro data f hnd
    rw [rollingVals_eq_map f _ (insertionSort_pairwise_dateLt data hnd)]
    apply List.map_congr_left
    intro r _
    rw [specWindowSum_insertionSort]
  · intro state data config thr r0 hnd hthr hne hmem hge hmin
    exact rolling12m_sales_breach state data config thr r0 hnd hthr hne hmem
      hge hmin
  · rw [c1_result]
  · rw [c1_result]

/-! ## Calendar-year machinery -/

/-- The sales-breach test of one year of the calendar loop, as a Bool. -/
def salesBreachB (config : RuleRecord) (data : List SalesRecord) (y : Int) :
    Bool :=
  qTruthy config.sales_threshold &&
    decide (config.sales_threshold.getD 0 ≤ annualThresholdSales config data y)

/-- The transaction-breach test of one year of the calendar loop. -/
def transBreachB (config : RuleRecord) (data : List SalesRecord) (y : Int) :
    Bool :=
  qTruthy config.transaction_threshold &&
    decide (config.transaction_threshold.getD 0 ≤
      yearSum (fun r => r.transaction_count) data y)

theorem salesBreachB_iff (config : RuleRecord) (data : List SalesRecord)
    (y : Int) :
    salesBreachB config data y = true ↔
      (qTruthy config.sales_threshold = true ∧
        config.sales_threshold.getD 0 ≤ annualThresholdSales config data y) := by
  simp [salesBreachB]

theorem transBreachB_iff (config : RuleRecord) (data : List SalesRecord)
    (y : Int) :
    transBreachB config data y = true ↔
      (qTruthy config.transaction_threshold = true ∧
        config.transaction_threshold.getD 0 ≤
          yearSum (fun r => r.transaction_count) data y) := by
  simp [transBreachB]

/-- The years are scanned in strictly ascending order. -/
theorem calYears_pairwise_lt (data : List SalesRecord) :
    (calYears data).Pairwise (· < ·) := by
  unfold calYears
  have hsorted := List.sorted_insertionSort (· ≤ · : Int → Int → Prop)
    ((data.map (fun r => yearOfDay r.date)).dedup)
  have hperm := List.perm_insertionSort (· ≤ · : Int → Int → Prop)
    ((data.map (fun r => yearOfDay r.date)).dedup)
  have hnd : (((data.map (fun r => yearOfDay r.date)).dedup).insertionSort
      (· ≤ ·)).Nodup :=
    hperm.nodup_iff.mpr (List.nodup_dedup _)
  exact (List.Pairwise.and hsorted hnd).imp
    (fun h => lt_of_le_of_ne h.1 h.2)

/-- The result of the year scan, when it finds a breach, reports some
scanned year's January 1 and that year's total for the breached metric. -/
theorem calLoop_mem_result (state : String) (config : RuleRecord)
    (data : List SalesRecord) :
    ∀ ys : List Int,
      (calLoop state config data ys).has_nexus = true →
      ∃ y ∈ ys,
        calLoop state config data ys =
          ⟨state, true, some (daysFromCivil y 1 1), some "sales",
            some (annualThresholdSales config data y),
            some "calendar_prev_curr"⟩ ∨
        calLoop state config data ys =
          ⟨state, true, some (daysFromCivil y 1 1), some "transactions",
            some (yearSum (fun r => r.transaction_count) data y),
            some "calendar_prev_curr"⟩
  | [], h => by simp [calLoop] at h
  | y :: ys, h => by
    by_cases hs : qTruthy config.sales_threshold = true ∧
        config.sales_threshold.getD 0 ≤ annualThresholdSales config data y
    · refine ⟨y, List.mem_cons_self y ys, Or.inl ?_⟩
      simp [calLoop, hs]
    · by_cases ht : qTruthy config.transaction_threshold = true ∧
          config.transaction_threshold.getD 0 ≤
            yearSum (fun r => r.transaction_count) data y
      · refine ⟨y, List.mem_cons_self y ys, Or.inr ?_⟩
        simp [calLoop, hs, ht]
      · have hrec : calLoop state config data (y :: ys) =
            calLoop state config data ys := by
          simp [calLoop, hs, ht]
        rw [hrec] at h
        obtain ⟨z, hz, hres⟩ := calLoop_mem_result state config data ys h
        exact ⟨z, List.mem_cons_of_mem y hz, by rw [hrec]; exact hres⟩

/-- The year scan returns on the first breaching year, testing sales
before transactions within that year. -/
theorem calLoop_first_hit (state : String) (config : RuleRecord)
    (data : List SalesRecord) (y : Int) :
    ∀ ys : List Int, ys.Pairwise (· < ·) → y ∈ ys →
      (salesBreachB config data y || transBreachB config data y) = true →
      (∀ z ∈ ys, z < y → salesBreachB config data z = false ∧
        transBreachB config data z = false) →
      calLoop state config data ys =
        (if salesBreachB config data y = true then
          ⟨state, true, some (daysFromCivil y 1 1), some "sales",
            some (annualThresholdSales config data y),
            some "calendar_prev_curr"⟩
        else
          ⟨state, true, some (daysFromCivil y 1 1), some "transactions",
            some (yearSum (fun r => r.transaction_count) data y),
            some "calendar_prev_curr"⟩)
  | [], _, hy, _, _ => by cases hy
  | z :: ys, hp, hy, hbr, hmin => by
    by_cases hzy : z = y
    · subst hzy
      by_cases hs : salesBreachB config data z = true
      · rw [if_pos hs]
        simp [calLoop, (salesBreachB_iff config data z).mp hs]
      · have ht : transBreachB config data z = true := by
          rcases Bool.or_eq_true_iff.mp hbr with h | h
          · exact absurd h hs
          · exact h
        rw [if_neg hs]
        have hsprop : ¬ (qTruthy config.sales_threshold = true ∧
            config.sales_threshold.getD 0 ≤
              annualThresholdSales config data z) := by
          rw [← salesBreachB_iff config data z]
          simp [hs]
        simp [calLoop, hsprop, (transBreachB_iff config data z).mp ht]
    · have hyys : y ∈ ys := by
        cases List.mem_cons.mp hy with
        | inl h1 => exact absurd h1.symm hzy
        | inr h2 => exact h2
      have hzlt : z < y := (List.pairwise_cons.mp hp).1 y hyys
      have hz := hmin z (List.mem_cons_self z ys) hzlt
      have hsprop : ¬ (qTruthy config.sales_threshold = true ∧
          config.sales_threshold.getD 0 ≤
            annualThresholdSales config data z) := by
        rw [← salesBreachB_iff config data z]
        simp [hz.1]
      have htprop : ¬ (qTruthy config.transaction_threshold = true ∧
          config.transaction_threshold.getD 0 ≤
            yearSum (fun r => r.transaction_count) data z) := by
        rw [← transBreachB_iff config data z]
        simp [hz.2]
      have hrec : calLoop state config data (z :: ys) =
          calLoop state config data ys := by
        simp [calLoop, hsprop, htprop]
      rw [hrec]
      exact calLoop_first_hit state config data y ys
        (List.pairwise_cons.mp hp).2 hyys hbr
        (fun w hw hwy => hmin w (List.mem_cons_of_mem z hw) hwy)

/-- The year scan finds nothing when no scanned year breaches. -/
theorem calLoop_none (state : String) (config : RuleRecord)
    (data : List SalesRecord) :
    ∀ ys : List Int,
      (∀ z ∈ ys, salesBreachB config data z = false ∧
        transBreachB config data z = false) →
      calLoop state config data ys =
        ⟨state, false, none, none, none, some "calendar_prev_curr"⟩
  | [], _ => rfl
  | z :: ys, h => by
    have hz := h z (List.mem_cons_self z ys)
    have hsprop : ¬ (qTruthy config.sales_threshold = true ∧
        config.sales_threshold.getD 0 ≤ annualThresholdSales config data z) := by
      rw [← salesBreachB_iff config data z]
      simp [hz.1]
    have htprop : ¬ (qTruthy config.transaction_threshold = true ∧
        config.transaction_threshold.getD 0 ≤
          yearSum (fun r => r.transaction_count) data z) := by
      rw [← transBreachB_iff config data z]
      simp [hz.2]
    have hrec : calLoop state config data (z :: ys) =
        calLoop state config data ys := by
      simp [calLoop, hsprop, htprop]
    rw [hrec]
    exact calLoop_none state config data ys
      (fun w hw => h w (List.mem_cons_of_mem z hw))

/-! ## Concrete calendar instances -/

/-- Two-year data: 2022 breaches the transaction threshold only, 2023
breaches the sales threshold. -/
def c2data : List SalesRecord :=
  [⟨daysFromCivil 2022 6 1, "CA", 1000, 0, 250⟩,
   ⟨daysFromCivil 2023 6 1, "CA", 600000, 0, 1⟩]

def c2config : RuleRecord :=
  { lookback_rule := some "calendar_prev_curr",
    sales_threshold := some 500000, transaction_threshold := some 200 }

def c2rules : List (String × RuleRecord) := [("CA", c2config)]

/-- One year of data whose two sales together cross the threshold. -/
def c3data : List SalesRecord :=
  [⟨daysFromCivil 2023 3 15, "NY", 60000, 0, 10⟩,
   ⟨daysFromCivil 2023 7 1, "NY", 60000, 0, 10⟩]

def c3config : RuleRecord :=
  { lookback_rule := some "calendar_prev_curr",
    sales_threshold := some 100000 }

section
attribute [local semireducible] Rat.add

/-- C2 counterexample. Under `calendar_prev_curr`, a rule exists, the
records are non-empty, the sales threshold is configured and is breached
(year 2023's total reaches it), yet the evaluator reports
`breach_type = transactions`: the 2022 transaction breach is scanned
first, so sales is not reported first whenever it breaches. -/
theorem calendar_sales_not_always_first :
    qTruthy c2config.sales_threshold = true ∧
    (∃ y ∈ calYears c2data,
      c2config.sales_threshold.getD 0 ≤ annualThresholdSales c2config c2data y) ∧
    lookupCfg c2rules "CA" = some c2config ∧
    (c2data.filter (fun r => decide (r.state = "CA"))).isEmpty = false ∧
    (analyze_state c2rules "CA" c2data).breach_type = some "transactions" ∧
    (analyze_state c2rules "CA" c2data).breach_type ≠ some "sales" := by
  decide

end

/-- C2 (amended). Under the `rolling_12m` policy, on a distinct-date
frame with a configured sales threshold, if the 365-day window sum of
threshold-sales reaches the threshold at any record date, the returned
result has `breach_type = sales` (the transaction threshold is checked
only when no sales breach exists); under `calendar_prev_curr` the sales
priority holds only within a year, not across years. -/
theorem rolling12m_sales_priority (state : String) (data : List SalesRecord)
    (config : RuleRecord) (thr : Rat)
    (hnd : (data.map SalesRecord.date).Nodup)
    (hthr : config.sales_threshold = some thr) (hne : thr ≠ 0)
    (hex : ∃ r ∈ data, thr ≤ specWindowSum (thresholdSales config) data r.date) :
    (calculate_rolling_12m state data config).breach_type = some "sales" ∧
    (calculate_rolling_12m state data config).has_nexus = true := by
  have hp : (data.insertionSort dateLe).Pairwise dateLt :=
    insertionSort_pairwise_dateLt data hnd
  have hsome : (firstHit (data.insertionSort dateLe)
      (rollingVals (thresholdSales config) (data.insertionSort dateLe))
      thr).isSome = true := by
    rw [firstHit, rollingVals_eq_map _ _ hp, zip_map_self, Option.isSome_map']
    rw [List.find?_isSome]
    obtain ⟨r, hr, hge⟩ := hex
    refine ⟨_, List.mem_map_of_mem _ ((List.mem_insertionSort dateLe).mpr hr), ?_⟩
    rw [specWindowSum_insertionSort]
    simpa using hge
  match hfh : firstHit (data.insertionSort dateLe)
      (rollingVals (thresholdSales config) (data.insertionSort dateLe)) thr with
  | none => rw [hfh] at hsome; simp at hsome
  | some (d, v) =>
      constructor <;>
        simp [calculate_rolling_12m, hthr, qTruthy_some hne, hfh]

/-- C2 witness: the daily $1,500 frame reaches its $500,000 sales
threshold, so the rolling evaluator reports a sales breach. -/
theorem rolling12m_sales_priority_witness :
    (calculate_rolling_12m "CA" c1data c1config).breach_type = some "sales" ∧
    (calculate_rolling_12m "CA" c1data c1config).has_nexus = true := by
  apply rolling12m_sales_priority "CA" c1data c1config 500000
    (mkDaily_dates_nodup "CA" c1start 1500 0 1 365) rfl (by norm_num)
  refine ⟨⟨c1start + (333 : Nat), "CA", 1500, 0, 1⟩,
    mkDaily_mem "CA" c1start 1500 0 1 (by norm_num), ?_⟩
  show (500000 : Rat) ≤ specWindowSum (thresholdSales c1config)
    (mkDaily "CA" c1start 1500 0 1 365) (c1start + (333 : Nat))
  rw [specWindowSum_mkDaily "CA" c1start 1500 0 1 (thresholdSales c1config)
    1500 (fun j => c1_thresholdSales j) (show 333 < 365 by norm_num)
    (by norm_num)]
  norm_num

section
attribute [local semireducible] Rat.add

/-- C3. Under `calendar_prev_curr`, whenever a breach is found the
reported `breach_date` is January 1 of some scanned calendar year — never
a transaction's own date — and `breach_amount` is that year's total for
the breached metric; concretely, the 2023 sales total of `c3data` first
exceeds the threshold and the breach is dated 2023-01-01, not the date of
either contributing transaction. -/
theorem calendar_breach_date_jan1 :
    (∀ (state : String) (data : List SalesRecord) (config : RuleRecord),
        (calculate_calendar_prev_curr state data config).has_nexus = true →
        ∃ y ∈ calYears data,
          (calculate_calendar_prev_curr state data config).breach_date =
            some (daysFromCivil y 1 1) ∧
          (((calculate_calendar_prev_curr state data config).breach_type =
              some "sales" ∧
            (calculate_calendar_prev_curr state data config).breach_amount =
              some (annualThresholdSales config data y)) ∨
           ((calculate_calendar_prev_curr state data config).breach_type =
              some "transactions" ∧
            (calculate_calendar_prev_curr state data config).breach_amount =
              some (yearSum (fun r => r.transaction_count) data y)))) ∧
    calculate_calendar_prev_curr "NY" c3data c3config =
      ⟨"NY", true, some (daysFromCivil 2023 1 1), some "sales", some 120000,
        some "calendar_prev_curr"⟩ ∧
    (calculate_calendar_prev_curr "NY" c3data c3config).breach_date ≠
      some (daysFromCivil 2023 3 15) ∧
    (calculate_calendar_prev_curr "NY" c3data c3config).breach_date ≠
      some (daysFromCivil 2023 7 1) := by
  refine ⟨?_, ?_⟩
  · intro state data config h
    obtain ⟨y, hy, hres⟩ :=
      calLoop_mem_result state config data (calYears data) h
    cases hres with
    | inl h1 =>
        exact ⟨y, hy, by rw [calculate_calendar_prev_curr, h1], Or.inl
          ⟨by rw [calculate_calendar_prev_curr, h1],
           by rw [calculate_calendar_prev_curr, h1]⟩⟩
    | inr h2 =>
        exact ⟨y, hy, by rw [calculate_calendar_prev_curr, h2], Or.inr
          ⟨by rw [calculate_calendar_prev_curr, h2],
           by rw [calculate_calendar_prev_curr, h2]⟩⟩
  · show _ ∧ _ ∧ _
    have hval : calculate_calendar_prev_curr "NY" c3data c3config =
        ⟨"NY", true, some (daysFromCivil 2023 1 1), some "sales", some 120000,
          some "calendar_prev_curr"⟩ := by decide
    refine ⟨hval, ?_, ?_⟩ <;> rw [hval] <;> decide

/-- C4. Under `calendar_prev_curr`, years are scanned in ascending order
and the evaluator returns on the first breaching year: within that year
the sales threshold is tested before the transaction threshold, and an
earlier year's breach of either kind is reported in preference to any
breach in a later year. -/
theorem calendar_scan_ascending_first_hit (state : String)
    (data : List SalesRecord) (config : RuleRecord) (y : Int)
    (hy : y ∈ calYears data)
    (hbr : (salesBreachB config data y || transBreachB config data y) = true)
    (hmin : ∀ z ∈ calYears data, z < y →
      salesBreachB config data z = false ∧ transBreachB config data z = false) :
    calculate_calendar_prev_curr state data config =
      (if salesBreachB config data y = true then
        ⟨state, true, some (daysFromCivil y 1 1), some "sales",
          some (annualThresholdSales config data y),
          some "calendar_prev_curr"⟩
      else
        ⟨state, true, some (daysFromCivil y 1 1), some "transactions",
          some (yearSum (fun r => r.transaction_count) data y),
          some "calendar_prev_curr"⟩) :=
  calLoop_first_hit state config data y (calYears data)
    (calYears_pairwise_lt data) hy hbr hmin

/-- C4 witness: on `c2data` the first scanned year 2022 breaches only the
transaction threshold, and it is reported even though 2023 has a sales
breach. -/
theorem calendar_scan_ascending_first_hit_witness :
    calculate_calendar_prev_curr "CA" c2data c2config =
      ⟨"CA", true, some (daysFromCivil 2022 1 1), some "transactions",
        some 250, some "calendar_prev_curr"⟩ := by
  rw [calendar_scan_ascending_first_hit "CA" c2data c2config 2022
    (by decide) (by decide) (by decide)]
  decide

end

/-! ## Result ordering -/

instance : IsTotal NexusBreachResult resLe :=
  ⟨fun a b => by
    unfold resLe
    by_cases h : a.has_nexus = b.has_nexus
    · rw [if_pos h, if_pos h.symm]
      exact le_total a.state b.state
    · rw [if_neg h, if_neg (fun hh => h hh.symm)]
      cases ha : a.has_nexus <;> cases hb : b.has_nexus <;> simp_all⟩

instance : IsTrans NexusBreachResult resLe :=
  ⟨fun a b c hab hbc => by
    unfold resLe at *
    cases ha : a.has_nexus <;> cases hb : b.has_nexus <;>
      cases hc : c.has_nexus <;> simp_all <;> exact le_trans hab hbc⟩

/-- C5. The orchestrator's result list puts every `has_nexus = true`
entry before every `has_nexus = false` entry, is ascending by state code
within each partition, and is a deterministic function of its inputs. -/
theorem analyze_all_states_ordering :
    ∀ (config : List (String × RuleRecord)) (sales_data : List SalesRecord),
      (analyze_all_states config sales_data).Pairwise (fun a b =>
        (b.has_nexus = true → a.has_nexus = true) ∧
        (a.has_nexus = b.has_nexus → a.state ≤ b.state)) ∧
      analyze_all_states config sales_data =
        analyze_all_states config sales_data := by
  intro config sales_data
  refine ⟨?_, rfl⟩
  have hs : (analyze_all_states config sales_data).Pairwise resLe := by
    unfold analyze_all_states
    exact List.sorted_insertionSort resLe _
  apply hs.imp
  intro a b h
  unfold resLe at h
  by_cases heq : a.has_nexus = b.has_nexus
  · rw [if_pos heq] at h
    exact ⟨fun hb => heq.trans hb, fun _ => h⟩
  · rw [if_neg heq] at h
    exact ⟨fun _ => h, fun hc => absurd hc heq⟩

/-! ## Degenerate evaluations -/

/-- C6. The single-state evaluator returns `has_nexus = false` without
failing in all three degenerate cases: no rule record for the state (no
`lookback_rule` echoed), an empty record set for the state (no
`lookback_rule` echoed), and an unrecognized `lookback_rule`, which is
echoed back verbatim. -/
theorem analyze_state_degenerate :
    ∀ (config : List (String × RuleRecord)) (state : String)
      (data : List SalesRecord),
      (lookupCfg config state = none →
        analyze_state config state data =
          ⟨state, false, none, none, none, none⟩) ∧
      (∀ cfg : RuleRecord, lookupCfg config state = some cfg →
        (data.filter (fun r => decide (r.state = state))).isEmpty = true →
        analyze_state config state data =
          ⟨state, false, none, none, none, none⟩) ∧
      (∀ cfg : RuleRecord, lookupCfg config state = some cfg →
        (data.filter (fun r => decide (r.state = state))).isEmpty = false →
        cfg.lookback_rule ≠ some "rolling_12m" →
        cfg.lookback_rule ≠ some "calendar_prev_curr" →
        analyze_state config state data =
          ⟨state, false, none, none, none, cfg.lookback_rule⟩) := by
  intro config state data
  refine ⟨?_, ?_, ?_⟩
  · intro hlook
    simp [analyze_state, hlook]
  · intro cfg hlook hempty
    simp [analyze_state, hlook, hempty]
  · intro cfg hlook hempty h1 h2
    simp only [analyze_state, hlook, hempty, Bool.false_eq_true, if_false]

/-! ## Zero or absent thresholds -/

theorem rolling_type_of_no_sales (state : String) (data : List SalesRecord)
    (config : RuleRecord) (hs : qTruthy config.sales_threshold = false) :
    (calculate_rolling_12m state data config).breach_type ≠ some "sales" := by
  simp only [calculate_rolling_12m, hs, Bool.false_eq_true, if_false]
  split <;> simp_all

theorem rolling_type_of_no_trans (state : String) (data : List SalesRecord)
    (config : RuleRecord) (ht : qTruthy config.transaction_threshold = false) :
    (calculate_rolling_12m state data config).breach_type ≠
      some "transactions" := by
  simp only [calculate_rolling_12m, ht, Bool.false_eq_true, if_false]
  split <;> simp_all

theorem rolling_none_of_no_thresholds (state : String)
    (data : List SalesRecord) (config : RuleRecord)
    (hs : qTruthy config.sales_threshold = false)
    (ht : qTruthy config.transaction_threshold = false) :
    calculate_rolling_12m state data config =
      ⟨state, false, none, none, none, some "rolling_12m"⟩ := by
  simp [calculate_rolling_12m, hs, ht]

theorem calLoop_type_of_no_sales (state : String) (config : RuleRecord)
    (data : List SalesRecord) (hs : qTruthy config.sales_threshold = false) :
    ∀ ys : List Int,
      (calLoop state config data ys).breach_type ≠ some "sales"
  | [] => by simp [calLoop]
  | y :: ys => by
    have hcond : ¬ (qTruthy config.sales_threshold = true ∧
        config.sales_threshold.getD 0 ≤ annualThresholdSales config data y) := by
      simp [hs]
    by_cases ht : qTruthy config.transaction_threshold = true ∧
        config.transaction_threshold.getD 0 ≤
          yearSum (fun r => r.transaction_count) data y
    · simp [calLoop, hcond, ht]
    · simp only [calLoop, hcond, ht, if_false]
      exact calLoop_type_of_no_sales state config data hs ys

theorem calLoop_type_of_no_trans (state : String) (config : RuleRecord)
    (data : List SalesRecord)
    (ht : qTruthy config.transaction_threshold = false) :
    ∀ ys : List Int,
      (calLoop state config data ys).breach_type ≠ some "transactions"
  | [] => by simp [calLoop]
  | y :: ys => by
    have hcond : ¬ (qTruthy config.transaction_threshold = true ∧
        config.transaction_threshold.getD 0 ≤
          yearSum (fun r => r.transaction_count) data y) := by
      simp [ht]
    by_cases hsy : qTruthy config.sales_threshold = true ∧
        config.sales_threshold.getD 0 ≤ annualThresholdSales config data y
    · simp [calLoop, hcond, hsy]
    · simp only [calLoop, hcond, hsy, if_false]
      exact calLoop_type_of_no_trans state config data ht ys

/-- C7. A zero or absent threshold means the metric is not evaluated:
its breach type is never reported under either policy, the evaluator
(being a total function) does not crash, and when both thresholds are
zero or absent neither policy ever finds a breach. -/
theorem absent_thresholds_never_breach :
    ∀ (state : String) (data : List SalesRecord) (config : RuleRecord),
      (qTruthy config.sales_threshold = false →
        (calculate_rolling_12m state data config).breach_type ≠ some "sales" ∧
        (calculate_calendar_prev_curr state data config).breach_type ≠
          some "sales") ∧
      (qTruthy config.transaction_threshold = false →
        (calculate_rolling_12m state data config).breach_type ≠
          some "transactions" ∧
        (calculate_calendar_prev_curr state data config).breach_type ≠
          some "transactions") ∧
      (qTruthy config.sales_threshold = false →
        qTruthy config.transaction_threshold = false →
        calculate_rolling_12m state data config =
          ⟨state, false, none, none, none, some "rolling_12m"⟩ ∧
        calculate_calendar_prev_curr state data config =
          ⟨state, false, none, none, none, some "calendar_prev_curr"⟩) := by
  intro state data config
  refine ⟨?_, ?_, ?_⟩
  · intro hs
    exact ⟨rolling_type_of_no_sales state data config hs,
      calLoop_type_of_no_sales state config data hs (calYears data)⟩
  · intro ht
    exact ⟨rolling_type_of_no_trans state data config ht,
      calLoop_type_of_no_trans state config data ht (calYears data)⟩
  · intro hs ht
    refine ⟨rolling_none_of_no_thresholds state data config hs ht, ?_⟩
    apply calLoop_none
    intro z _
    constructor
    · simp [salesBreachB, hs]
    · simp [transBreachB, ht]

/-! ## Contract violations are tolerated, not rejected -/

/-- `c2data` plus one row of a different state, for the foreign-row
case. -/
def c8mixed : List SalesRecord :=
  c2data ++ [⟨daysFromCivil 2023 2 1, "TX", 100, 0, 1⟩]

section
attribute [local semireducible] Rat.add

/-- C8 counterexample. The evaluator does not fail fast in either alleged
situation: invoked directly for a state with no rule entry it returns the
plain `has_nexus = false` result (indistinguishable from "no nexus
detected"), and a record set containing another state's rows is silently
filtered, producing the same result as the filtered set — no distinct
error kind exists or is surfaced. -/
theorem analyze_state_no_fail_fast :
    lookupCfg c2rules "ZZ" = none ∧
    analyze_state c2rules "ZZ" c2data = ⟨"ZZ", false, none, none, none, none⟩ ∧
    (∃ r ∈ c8mixed, r.state ≠ "CA") ∧
    analyze_state c2rules "CA" c8mixed =
      analyze_state c2rules "CA"
        (c8mixed.filter (fun r => decide (r.state = "CA"))) ∧
    (analyze_state c2rules "CA" c8mixed).has_nexus = true := by
  decide

end

/-- C8 (amended). The evaluator rejects neither situation: for every
invocation, rows of other states are filtered out (the result equals the
result on the filtered record set), and a direct invocation for a state
with no rule entry returns the ordinary `has_nexus = false` result rather
than surfacing a distinct error kind. -/
theorem analyze_state_tolerates_contract_violations :
    ∀ (config : List (String × RuleRecord)) (state : String)
      (data : List SalesRecord),
      analyze_state config state data =
        analyze_state config state
          (data.filter (fun r => decide (r.state = state))) ∧
      (lookupCfg config state = none →
        analyze_state config state data =
          ⟨state, false, none, none, none, none⟩) := by
  intro config state data
  constructor
  · have hff : (data.filter (fun r => decide (r.state = state))).filter
        (fun r => decide (r.state = state)) =
        data.filter (fun r => decide (r.state = state)) := by
      rw [List.filter_filter]
      apply List.filter_congr
      intro x _
      simp
    simp only [analyze_state, hff]
  · intro hlook
    simp [analyze_state, hlook]

/-! ## Marketplace inclusion flag -/

def c9start : Int := daysFromCivil 2024 1 1

/-- 100 days of $4,000 direct plus $1,500 marketplace sales:
$400,000 direct and $150,000 marketplace in total. -/
def c9data : List SalesRecord := mkDaily "WA" c9start 4000 1500 1 100

def c9cfgExcl : RuleRecord :=
  { lookback_rule := some "rolling_12m", sales_threshold := some 500000,
    marketplace_threshold_inclusion := some false }

def c9cfgIncl : RuleRecord :=
  { lookback_rule := some "rolling_12m", sales_threshold := some 500000,
    marketplace_threshold_inclusion := some true }

theorem c9_thresholdSales_excl (j : Nat) :
    thresholdSales c9cfgExcl ⟨c9start + j, "WA", 4000, 1500, 1⟩ = 4000 := by
  simp [thresholdSales, c9cfgExcl]

theorem c9_thresholdSales_incl (j : Nat) :
    thresholdSales c9cfgIncl ⟨c9start + j, "WA", 4000, 1500, 1⟩ = 5500 := by
  norm_num [thresholdSales, c9cfgIncl]

theorem c9_result_excl :
    calculate_rolling_12m "WA" c9data c9cfgExcl =
      ⟨"WA", false, none, none, none, some "rolling_12m"⟩ := by
  apply rolling12m_no_breach "WA" c9data c9cfgExcl 500000
    (mkDaily_dates_nodup "WA" c9start 4000 1500 1 100) rfl (by norm_num)
  · intro r hr
    obtain ⟨j, hj, rfl⟩ := mkDaily_mem_inv "WA" c9start 4000 1500 1 hr
    show specWindowSum (thresholdSales c9cfgExcl)
      (mkDaily "WA" c9start 4000 1500 1 100) (c9start + (j : Int)) < 500000
    rw [specWindowSum_mkDaily "WA" c9start 4000 1500 1
      (thresholdSales c9cfgExcl) 4000 (fun j => c9_thresholdSales_excl j) hj
      (by omega)]
    have hcast : (j : Rat) ≤ 99 := by exact_mod_cast Nat.lt_succ_iff.mp hj
    nlinarith
  · rfl

theorem c9_result_incl :
    calculate_rolling_12m "WA" c9data c9cfgIncl =
      ⟨"WA", true, some (c9start + 90), some "sales", some 500500,
        some "rolling_12m"⟩ := by
  have hform : ∀ k : Nat, k < 100 → k ≤ 364 →
      specWindowSum (thresholdSales c9cfgIncl) c9data (c9start + k) =
        ((k : Rat) + 1) * 5500 := by
    intro k hk h364
    exact specWindowSum_mkDaily "WA" c9start 4000 1500 1
      (thresholdSales c9cfgIncl) 5500 (fun j => c9_thresholdSales_incl j) hk h364
  have h90 : specWindowSum (thresholdSales c9cfgIncl) c9data
      (c9start + (90 : Nat)) = 500500 := by
    rw [hform 90 (by norm_num) (by norm_num)]
    norm_num
  have hres := rolling12m_sales_breach "WA" c9data c9cfgIncl 500000
    ⟨c9start + (90 : Nat), "WA", 4000, 1500, 1⟩
    (mkDaily_dates_nodup "WA" c9start 4000 1500 1 100)
    rfl (by norm_num)
    (mkDaily_mem "WA" c9start 4000 1500 1 (by norm_num))
    (by rw [h90]; norm_num)
    (by
      intro r hr hlt
      obtain ⟨j, hj, rfl⟩ := mkDaily_mem_inv "WA" c9start 4000 1500 1 hr
      simp only at hlt ⊢
      have hj90 : j < 90 := by exact_mod_cast (by omega : (j : Int) < 90)
      rw [hform j hj (by omega)]
      have hcast : (j : Rat) ≤ 89 := by exact_mod_cast Nat.lt_succ_iff.mp hj90
      nlinarith)
  rw [hres, h90]
  norm_num

/-- C9. The per-record value compared against the sales threshold is
`nexus_sales + marketplace_sales` when the inclusion flag is true and
`nexus_sales` alone when it is false; with $400,000 direct plus $150,000
marketplace sales against a $500,000 threshold, the flag-false evaluation
finds no breach, while the flag-true evaluation breaches on the first day
the combined window sum reaches $500,000 (day 90, sum $500,500). -/
theorem marketplace_inclusion_toggle :
    (∀ (config : RuleRecord) (r : SalesRecord),
        config.marketplace_threshold_inclusion = some true →
        thresholdSales config r = r.nexus_sales + r.marketplace_sales) ∧
    (∀ (config : RuleRecord) (r : SalesRecord),
        config.marketplace_threshold_inclusion = some false →
        thresholdSales config r = r.nexus_sales) ∧
    calculate_rolling_12m "WA" c9data c9cfgExcl =
      ⟨"WA", false, none, none, none, some "rolling_12m"⟩ ∧
    (calculate_rolling_12m "WA" c9data c9cfgIncl).breach_date =
      some (c9start + 90) ∧
    (calculate_rolling_12m "WA" c9data c9cfgIncl).breach_type =
      some "sales" ∧
    (calculate_rolling_12m "WA" c9data c9cfgIncl).breach_amount =
      some 500500 := by
  refine ⟨?_, ?_, c9_result_excl, ?_, ?_, ?_⟩
  · intro config r h
    simp [thresholdSales, h]
  · intro config r h
    simp [thresholdSales, h]
  · rw [c9_result_incl]
  · rw [c9_result_incl]
  · rw [c9_result_incl]

/-! ## Default marketplace inclusion -/

theorem calLoop_congr (state : String) (data : List SalesRecord)
    (config1 config2 : RuleRecord)
    (hs : config1.sales_threshold = config2.sales_threshold)
    (ht : config1.transaction_threshold = config2.transaction_threshold)
    (ha : ∀ y, annualThresholdSales config1 data y =
      annualThresholdSales config2 data y) :
    ∀ ys : List Int,
      calLoop state config1 data ys = calLoop state config2 data ys
  | [] => rfl
  | y :: ys => by
    simp only [calLoop, hs, ht, ha y,
      calLoop_congr state data config1 config2 hs ht ha ys]

/-- C10. A rule record that omits `marketplace_threshold_inclusion`
behaves exactly as if the flag were `true`: the per-record threshold
sales value is `nexus_sales + marketplace_sales`, and both policies
produce results identical to the flag-true configuration. -/
theorem marketplace_inclusion_default_true :
    ∀ (state : String) (data : List SalesRecord) (config : RuleRecord)
      (r : SalesRecord),
      (config.marketplace_threshold_inclusion = none →
        thresholdSales config r = r.nexus_sales + r.marketplace_sales) ∧
      calculate_rolling_12m state data
          { config with marketplace_threshold_inclusion := none } =
        calculate_rolling_12m state data
          { config with marketplace_threshold_inclusion := some true } ∧
      calculate_calendar_prev_curr state data
          { config with marketplace_threshold_inclusion := none } =
        calculate_calendar_prev_curr state data
          { config with marketplace_threshold_inclusion := some true } := by
  intro state data config r
  have hts : thresholdSales
      { config with marketplace_threshold_inclusion := none } =
      thresholdSales
        { config with marketplace_threshold_inclusion := some true } := by
    funext x
    simp [thresholdSales]
  refine ⟨?_, ?_, ?_⟩
  · intro h
    simp [thresholdSales, h]
  · simp only [calculate_rolling_12m, hts]
  · apply calLoop_congr
    · rfl
    · rfl
    · intro y
      simp [annualThresholdSales]

end NexusAnalyzer
